import Mathlib

/-!
Verification of the subtitle lookup/caching engine
(`src/tool/const.ts`, `src/tool/read_srt.ts`).

The TypeScript code is shallowly embedded: JavaScript strings become
`String`, line arrays become `List String`, the mutable module-level
cache becomes an explicit `SrtCache` value threaded through each
operation, and the filesystem becomes an explicit association list from
paths to (content, mtime) pairs.  Thrown Node errors become `Except`
errors carrying a message.  The two process-wide tunables
`SRT_INIT_WINDOW` and `SRT_CONTEXT_WINDOW` become explicit parameters.
-/

namespace Srt

/-- Characters matched by the JavaScript regex class `\s` (also the set
trimmed by `String.prototype.trim`). -/
def jsWhitespace (c : Char) : Bool :=
  c.toNat = 9 || c.toNat = 10 || c.toNat = 11 || c.toNat = 12 || c.toNat = 13 ||
  c.toNat = 32 || c.toNat = 0xa0 || c.toNat = 0x1680 ||
  (0x2000 ≤ c.toNat && c.toNat ≤ 0x200a) ||
  c.toNat = 0x2028 || c.toNat = 0x2029 || c.toNat = 0x202f ||
  c.toNat = 0x205f || c.toNat = 0x3000 || c.toNat = 0xfeff

/-- Model of `line.trim().length === 0`: every character is whitespace. -/
def isBlank (s : String) : Bool :=
  s.data.all jsWhitespace

/-- Characters matched by the regex class `\d`. -/
def isDigitCh (c : Char) : Bool :=
  48 ≤ c.toNat && c.toNat ≤ 57

/-- Numeric value of a decimal digit character. -/
def digitVal (c : Char) : Nat :=
  c.toNat - 48

/-- Core of `parseTimestamp`, on the character list of the input: the
anchored regex `^(\d{2}):(\d{2}):(\d{2}),(\d{3})$` followed by the
arithmetic `hours*60*60*1000 + minutes*60*1000 + seconds*1000 + ms`. -/
def parseTimestampChars : List Char → Option Nat
  | [h1, h2, c1, m1, m2, c2, s1, s2, c3, x1, x2, x3] =>
    if isDigitCh h1 && isDigitCh h2 && c1 = ':' &&
        isDigitCh m1 && isDigitCh m2 && c2 = ':' &&
        isDigitCh s1 && isDigitCh s2 && c3 = ',' &&
        isDigitCh x1 && isDigitCh x2 && isDigitCh x3 then
      some ((10 * digitVal h1 + digitVal h2) * (60 * 60 * 1000) +
            (10 * digitVal m1 + digitVal m2) * (60 * 1000) +
            (10 * digitVal s1 + digitVal s2) * 1000 +
            (100 * digitVal x1 + 10 * digitVal x2 + digitVal x3))
    else none
  | _ => none

/-- `parseTimestamp` from `const.ts`/`read_srt.ts` (both files define the
same function): `null` becomes `none`. -/
def parseTimestamp (value : String) : Option Nat :=
  parseTimestampChars value.data

/-- Splitting on the regex `/\r?\n/`, as in `content.split(/\r?\n/)`:
accumulates the current line (in reverse) while scanning. -/
def splitLinesAux : List Char → List Char → List String
  | [], acc => [String.mk acc.reverse]
  | '\r' :: '\n' :: rest, acc => String.mk acc.reverse :: splitLinesAux rest []
  | '\n' :: rest, acc => String.mk acc.reverse :: splitLinesAux rest []
  | c :: rest, acc => splitLinesAux rest (c :: acc)

/-- Model of `content.split(/\r?\n/)`. -/
def splitLines (content : String) : List String :=
  splitLinesAux content.data []

/-- Greedy tail of `\s+`: drop whitespace characters. -/
def dropWhitespaceGreedy : List Char → List Char
  | [] => []
  | c :: rest => if jsWhitespace c then dropWhitespaceGreedy rest else c :: rest

/-- Model of the regex fragment `\s+`: requires at least one whitespace
character and consumes the maximal run.  (The following literal in the
timing regex is `-` or a digit, never whitespace, so the greedy match
needs no backtracking.) -/
def dropWhitespaceOnePlus : List Char → Option (List Char)
  | [] => none
  | c :: rest => if jsWhitespace c then some (dropWhitespaceGreedy rest) else none

/-- Model of the regex group `(\d{2}:\d{2}:\d{2},\d{3})`: consume exactly
that shape from the front, returning the captured characters and the
remainder. -/
def takeTimestampShape : List Char → Option (List Char × List Char)
  | h1 :: h2 :: c1 :: m1 :: m2 :: c2 :: s1 :: s2 :: c3 :: x1 :: x2 :: x3 :: rest =>
    if isDigitCh h1 && isDigitCh h2 && c1 = ':' &&
        isDigitCh m1 && isDigitCh m2 && c2 = ':' &&
        isDigitCh s1 && isDigitCh s2 && c3 = ',' &&
        isDigitCh x1 && isDigitCh x2 && isDigitCh x3 then
      some ([h1, h2, c1, m1, m2, c2, s1, s2, c3, x1, x2, x3], rest)
    else none
  | _ => none

/-- Model of `line.match(TIMESTAMP_REGEX)` where `TIMESTAMP_REGEX` is
`/^(\d{2}:\d{2}:\d{2},\d{3})\s+-->\s+(\d{2}:\d{2}:\d{2},\d{3})/` (both
source files define the same regex): returns the two captured timestamp
strings on a match.  The regex is anchored at the start only, so any
trailing characters after the second timestamp are ignored. -/
def matchTimingLine (line : String) : Option (String × String) :=
  match takeTimestampShape line.data with
  | none => none
  | some (g1, rest1) =>
    match dropWhitespaceOnePlus rest1 with
    | none => none
    | some rest2 =>
      match rest2 with
      | '-' :: '-' :: '>' :: rest3 =>
        match dropWhitespaceOnePlus rest3 with
        | none => none
        | some rest4 =>
          match takeTimestampShape rest4 with
          | none => none
          | some (g2, _) => some (String.mk g1, String.mk g2)
      | _ => none

/-- One element of an `entryLines` array: `{ lineNumber, content }`. -/
structure NumberedLine where
  lineNumber : Nat
  content : String
deriving Repr, DecidableEq

/-- The `SrtEntry` record of `const.ts` (the field `end` is spelled
`end_` because `end` is a Lean keyword). -/
structure SrtEntry where
  start : Nat
  end_ : Nat
  timestampLine : Nat
  entryLines : List NumberedLine
deriving Repr, DecidableEq

/-- The backward expansion loop of `extractEntries` in `const.ts`:
`let entryStart = i; while (entryStart > 0 && lines[entryStart-1].trim().length > 0) entryStart -= 1;`. -/
def scanBack (lines : List String) : Nat → Nat
  | 0 => 0
  | i + 1 => if isBlank (lines.getD i "") then i + 1 else scanBack lines i

/-- Structural core of the forward collection loop: walks the still
uncollected suffix of the file while `cursor` tracks the absolute
0-based index of its first element. -/
def collectForwardAux : List String → Nat → List NumberedLine
  | [], _ => []
  | s :: rest, cursor =>
    if isBlank s then []
    else ⟨cursor + 1, s⟩ :: collectForwardAux rest (cursor + 1)

/-- The forward collection loop shared by `extractEntries` (`const.ts`)
and `getLineNumberAtTimestamp` (`read_srt.ts`):
`while (cursor < lines.length && lines[cursor].trim().length > 0) { push({lineNumber: cursor+1, content}); cursor += 1; }`.
`lines[cursor]` is the head of `lines.drop cursor`, and the loop guard
`cursor < lines.length` is that suffix being non-empty. -/
def collectForward (lines : List String) (cursor : Nat) : List NumberedLine :=
  collectForwardAux (lines.drop cursor) cursor

/-- Structural core of the `extractEntries` scan: walks the suffix of
the file starting at absolute index `i` (the full file is also passed
for the block expansion, which indexes it at absolute positions). -/
def extractEntriesAux (lines : List String) : List String → Nat → List SrtEntry
  | [], _ => []
  | line :: rest, i =>
    match matchTimingLine line with
    | none => extractEntriesAux lines rest (i + 1)
    | some (g1, g2) =>
      match parseTimestamp g1, parseTimestamp g2 with
      | some startMs, some endMs =>
        { start := startMs, end_ := endMs, timestampLine := i,
          entryLines := collectForward lines (scanBack lines i) } ::
          extractEntriesAux lines rest (i + 1)
      | _, _ => extractEntriesAux lines rest (i + 1)

/-- `extractEntries` of `const.ts`: the `for` loop over all line
indices, as a structural walk of the line list. -/
def extractEntries (lines : List String) : List SrtEntry :=
  extractEntriesAux lines lines 0

/-- A file's observable state: its text content and its modification
time (`stats.mtimeMs`), the cache's version token. -/
structure FileData where
  content : String
  mtime : Nat
deriving Repr, DecidableEq

/-- The filesystem, as an association list from path to file data. -/
abbrev FileSys := List (String × FileData)

/-- Looking a path up in the filesystem (`statSync` + `readFileSync`;
`none` models the thrown `ENOENT` error). -/
def fsGet (fs : FileSys) (path : String) : Option FileData :=
  (fs.find? (fun kv => kv.1 == path)).map (·.2)

/-- Stand-in for the message of the Node error thrown for a missing
file. -/
def fsErrorMessage (path : String) : String :=
  "ENOENT: no such file or directory, stat " ++ path

/-- The `SrtCacheValue` record of `const.ts`. -/
structure SrtCacheValue where
  version : Nat
  lines : List String
  entries : List SrtEntry
deriving Repr, DecidableEq

/-- The module-level `srtCache` map, as an association list. -/
abbrev SrtCache := List (String × SrtCacheValue)

/-- `srtCache.get(path)`. -/
def cacheGet (cache : SrtCache) (path : String) : Option SrtCacheValue :=
  (cache.find? (fun kv => kv.1 == path)).map (·.2)

/-- `srtCache.set(path, value)`: replaces any existing entry for the
key. -/
def cacheSet (cache : SrtCache) (path : String) (v : SrtCacheValue) : SrtCache :=
  match cache with
  | [] => [(path, v)]
  | kv :: rest =>
    if kv.1 == path then (path, v) :: rest else kv :: cacheSet rest path v

/-- The load-and-index step of `getSrtData`: read, split, extract (the
code binds `lines` once; it is spelled out here). -/
def buildSrtValue (fd : FileData) : SrtCacheValue :=
  { version := fd.mtime, lines := splitLines fd.content,
    entries := extractEntries (splitLines fd.content) }

/-- `getSrtData` of `const.ts`: stat the file for its version token,
return the cached value when the token matches, otherwise re-read,
re-index and store.  The updated cache is returned alongside. -/
def getSrtData (fs : FileSys) (cache : SrtCache) (filePath : String) :
    Except String (SrtCacheValue × SrtCache) :=
  match fsGet fs filePath with
  | none => .error (fsErrorMessage filePath)
  | some fd =>
    match cacheGet cache filePath with
    | some cached =>
      if cached.version = fd.mtime then .ok (cached, cache)
      else
        let v := buildSrtValue fd
        .ok (v, cacheSet cache filePath v)
    | none =>
      let v := buildSrtValue fd
      .ok (v, cacheSet cache filePath v)

/-- `loadSrtLines` of `const.ts`: `getSrtData(filePath).lines`. -/
def loadSrtLines (fs : FileSys) (cache : SrtCache) (filePath : String) :
    Except String (List String × SrtCache) :=
  match getSrtData fs cache filePath with
  | .error e => .error e
  | .ok (value, cache') => .ok (value.lines, cache')

/-- The failure message for a malformed timestamp argument. -/
def invalidTimestampMessage : String :=
  "Invalid timestamp format. Expected HH:MM:SS,mmm."

/-- The failure message when no caption range contains the target. -/
def noMatchMessage : String :=
  "No subtitle entry matches the provided timestamp."

/-- The binary-search `while` loop of `getLinesAtTimestamp`.  `left` and
`right` are JavaScript numbers (`right` starts at `entries.length - 1`,
which is `-1` for an empty list), so they are embedded as `Int`; `/` on
`Int` rounds toward negative infinity on the values reached here, same
as `Math.floor((left + right) / 2)`.  The loop-local constant `mid` is
spelled out at each use.  In execution `mid` always lies in bounds, so
the `none` arm of the lookup is unreachable. -/
def bsearchEntries (entries : List SrtEntry) (targetMs : Nat) (left right : Int) :
    Option SrtEntry :=
  if left ≤ right then
    match entries.get? (((left + right) / 2)).toNat with
    | none => none
    | some entry =>
      if targetMs < entry.start then
        bsearchEntries entries targetMs left ((left + right) / 2 - 1)
      else if entry.end_ < targetMs then
        bsearchEntries entries targetMs ((left + right) / 2 + 1) right
      else some entry
  else none
termination_by (right + 1 - left).toNat
decreasing_by
  all_goals omega

/-- Result shape of `getLinesAtTimestamp`. -/
inductive TsResult where
  | ok (startLine endLine : Nat) (entry : List NumberedLine) (contextLines : String)
  | err (message : String)
deriving Repr, DecidableEq

/-- The entry lines of a successful `TsResult`, `none` on failure. -/
def TsResult.entry? : TsResult → Option (List NumberedLine)
  | .ok _ _ entry _ => some entry
  | .err _ => none

/-- `getLinesAtTimestamp` of `const.ts`, with the `SRT_INIT_WINDOW`
global as the explicit parameter `window`.  Nat subtraction makes
`Math.max(0, ·)` on the start index implicit. -/
def getLinesAtTimestamp (window : Nat) (fs : FileSys) (cache : SrtCache)
    (filePath timestamp : String) : TsResult × SrtCache :=
  match parseTimestamp timestamp with
  | none => (.err invalidTimestampMessage, cache)
  | some targetMs =>
    match getSrtData fs cache filePath with
    | .error e => (.err e, cache)
    | .ok (value, cache') =>
      match bsearchEntries value.entries targetMs 0 ((value.entries.length : Int) - 1) with
      | some entry =>
        let matchedLineNumber := entry.timestampLine + 1
        let startLineIndex := matchedLineNumber - 1 - window
        let endLineIndex := min value.lines.length (matchedLineNumber - 1 + window + 1)
        let contextLines := (value.lines.drop startLineIndex).take (endLineIndex - startLineIndex)
        (.ok (startLineIndex + 1) endLineIndex entry.entryLines
          (String.intercalate "\n" contextLines), cache')
      | none => (.err noMatchMessage, cache')

/-- Result shape of `readPreviousLines`: the optional `note` field is
present only on the edge branch. -/
inductive PrevResult where
  | ok (firstLineNumber : Option Nat) (lines : List NumberedLine) (note : Option String)
  | err (message : String)
deriving Repr, DecidableEq

/-- Result shape of `readNextLines`. -/
inductive NextResult where
  | ok (lastLineNumber : Option Nat) (lines : List NumberedLine) (note : Option String)
  | err (message : String)
deriving Repr, DecidableEq

/-- The note returned by `readPreviousLines` at the start edge. -/
def startNote : String := "Requested line is at the start of the file."

/-- The note returned by `readNextLines` at the end edge. -/
def endNote : String := "Requested line is at or beyond the end of the file."

/-- `readPreviousLines` of `const.ts`, with `SRT_CONTEXT_WINDOW` as the
explicit parameter `ctxWindow`; `lineNumber` is an `Int` since the
JavaScript argument may be zero or negative. -/
def readPreviousLines (ctxWindow : Nat) (fs : FileSys) (cache : SrtCache)
    (filePath : String) (lineNumber : Int) : PrevResult × SrtCache :=
  if lineNumber ≤ 1 then
    (.ok none [] (some startNote), cache)
  else
    match loadSrtLines fs cache filePath with
    | .error e => (.err e, cache)
    | .ok (lines, cache') =>
      let startIndex := (max 0 (lineNumber - 1 - ctxWindow)).toNat
      let endIndex := (max 0 (lineNumber - 1)).toNat
      let slice := (lines.drop startIndex).take (endIndex - startIndex)
      (.ok (if slice.length > 0 then some (startIndex + 1) else none)
        (slice.mapIdx fun index content => ⟨startIndex + index + 1, content⟩)
        none, cache')

/-- `readNextLines` of `const.ts`. -/
def readNextLines (ctxWindow : Nat) (fs : FileSys) (cache : SrtCache)
    (filePath : String) (lineNumber : Int) : NextResult × SrtCache :=
  match loadSrtLines fs cache filePath with
  | .error e => (.err e, cache)
  | .ok (lines, cache') =>
    if (lines.length : Int) ≤ lineNumber then
      (.ok none [] (some endNote), cache')
    else
      let startIndex := (max 0 lineNumber).toNat
      let endIndex := min lines.length (startIndex + ctxWindow)
      let slice := (lines.drop startIndex).take (endIndex - startIndex)
      (.ok (if slice.length > 0 then some (startIndex + slice.length) else none)
        (slice.mapIdx fun index content => ⟨startIndex + index + 1, content⟩)
        none, cache')

/-- The linear `for` loop of `getLineNumberAtTimestamp` in
`read_srt.ts`, walking the suffix of the file starting at absolute
index `i`.  Its backward expansion (`cursor = i - 1; while (cursor >= 0
&& lines[cursor].trim().length > 0) cursor -= 1; cursor += 1;`) computes
the same index as the `entryStart` loop of `extractEntries` — the least
`j ≤ i` with no blank line in `lines[j..i-1]` — so it is embedded as the
same function `scanBack`, and its forward collection loop is the same
loop as `collectForward`. -/
def linearScanAux (lines : List String) (targetMs : Nat) :
    List String → Nat → Option (Nat × List NumberedLine)
  | [], _ => none
  | line :: rest, i =>
    match matchTimingLine line with
    | none => linearScanAux lines targetMs rest (i + 1)
    | some (g1, g2) =>
      match parseTimestamp g1, parseTimestamp g2 with
      | some startMs, some endMs =>
        if startMs ≤ targetMs ∧ targetMs ≤ endMs then
          some (i + 1, collectForward lines (scanBack lines i))
        else linearScanAux lines targetMs rest (i + 1)
      | _, _ => linearScanAux lines targetMs rest (i + 1)

/-- Result shape of `getLineNumberAtTimestamp`. -/
inductive LineResult where
  | ok (lineNumber : Nat) (entry : List NumberedLine)
  | err (message : String)
deriving Repr, DecidableEq

/-- `getLineNumberAtTimestamp` of `read_srt.ts`: reads the file directly
(no cache) and scans linearly for the first containing range. -/
def getLineNumberAtTimestamp (fs : FileSys) (filePath timestamp : String) :
    LineResult :=
  match parseTimestamp timestamp with
  | none => .err invalidTimestampMessage
  | some targetMs =>
    match fsGet fs filePath with
    | none => .err (fsErrorMessage filePath)
    | some fd =>
      match linearScanAux (splitLines fd.content) targetMs (splitLines fd.content) 0 with
      | some (n, entry) => .ok n entry
      | none => .err noMatchMessage

/-- The four numeric fields of a pattern-valid timestamp string, read
directly off its characters (used to state claims about field ranges). -/
def timestampFields (s : String) : Option (Nat × Nat × Nat × Nat) :=
  match s.data with
  | [h1, h2, c1, m1, m2, c2, s1, s2, c3, x1, x2, x3] =>
    if isDigitCh h1 && isDigitCh h2 && c1 = ':' &&
        isDigitCh m1 && isDigitCh m2 && c2 = ':' &&
        isDigitCh s1 && isDigitCh s2 && c3 = ',' &&
        isDigitCh x1 && isDigitCh x2 && isDigitCh x3 then
      some (10 * digitVal h1 + digitVal h2, 10 * digitVal m1 + digitVal m2,
            10 * digitVal s1 + digitVal s2,
            100 * digitVal x1 + 10 * digitVal x2 + digitVal x3)
    else none
  | _ => none

/-- Sample two-block subtitle file used by the concrete witnesses. -/
def demoContent : String :=
  "1\n00:00:01,000 --> 00:00:02,500\nhello\n\n2\n00:00:03,000 --> 00:00:04,000\nbye"

/-- Filesystem holding the sample file. -/
def demoFs : FileSys := [("a.srt", { content := demoContent, mtime := 7 })]

/-- The first caption block of the sample file. -/
def demoEntry0 : SrtEntry :=
  { start := 1000, end_ := 2500, timestampLine := 1,
    entryLines := [⟨1, "1"⟩, ⟨2, "00:00:01,000 --> 00:00:02,500"⟩, ⟨3, "hello"⟩] }

theorem parseTimestampChars_eq_some_iff (l : List Char) (v : Nat) :
    parseTimestampChars l = some v ↔
    ∃ h1 h2 m1 m2 s1 s2 x1 x2 x3 : Char,
      l = [h1, h2, ':', m1, m2, ':', s1, s2, ',', x1, x2, x3] ∧
      isDigitCh h1 = true ∧ isDigitCh h2 = true ∧ isDigitCh m1 = true ∧
      isDigitCh m2 = true ∧ isDigitCh s1 = true ∧ isDigitCh s2 = true ∧
      isDigitCh x1 = true ∧ isDigitCh x2 = true ∧ isDigitCh x3 = true ∧
      v = (10 * digitVal h1 + digitVal h2) * (60 * 60 * 1000) +
          (10 * digitVal m1 + digitVal m2) * (60 * 1000) +
          (10 * digitVal s1 + digitVal s2) * 1000 +
          (100 * digitVal x1 + 10 * digitVal x2 + digitVal x3) := by
  constructor
  · intro h
    unfold parseTimestampChars at h
    split at h
    · rename_i h1 h2 c1 m1 m2 c2 s1 s2 c3 x1 x2 x3
      split at h
      · rename_i hguard
        simp only [Bool.and_eq_true, decide_eq_true_eq] at hguard
        obtain ⟨⟨⟨⟨⟨⟨⟨⟨⟨⟨⟨d1, d2⟩, e1⟩, d3⟩, d4⟩, e2⟩, d5⟩, d6⟩, e3⟩, d7⟩, d8⟩, d9⟩ := hguard
        subst e1; subst e2; subst e3
        exact ⟨h1, h2, m1, m2, s1, s2, x1, x2, x3, rfl, d1, d2, d3, d4, d5, d6,
          d7, d8, d9, (Option.some_inj.mp h).symm⟩
      · exact absurd h (by simp)
    · exact absurd h (by simp)
  · rintro ⟨h1, h2, m1, m2, s1, s2, x1, x2, x3, rfl, d1, d2, d3, d4, d5, d6, d7, d8, d9, rfl⟩
    simp [parseTimestampChars, d1, d2, d3, d4, d5, d6, d7, d8, d9]

theorem timestampFields_eq_some_iff (s : String) (hh mm ss ms : Nat) :
    timestampFields s = some (hh, mm, ss, ms) ↔
    ∃ h1 h2 m1 m2 s1 s2 x1 x2 x3 : Char,
      s.data = [h1, h2, ':', m1, m2, ':', s1, s2, ',', x1, x2, x3] ∧
      isDigitCh h1 = true ∧ isDigitCh h2 = true ∧ isDigitCh m1 = true ∧
      isDigitCh m2 = true ∧ isDigitCh s1 = true ∧ isDigitCh s2 = true ∧
      isDigitCh x1 = true ∧ isDigitCh x2 = true ∧ isDigitCh x3 = true ∧
      hh = 10 * digitVal h1 + digitVal h2 ∧ mm = 10 * digitVal m1 + digitVal m2 ∧
      ss = 10 * digitVal s1 + digitVal s2 ∧
      ms = 100 * digitVal x1 + 10 * digitVal x2 + digitVal x3 := by
  constructor
  · intro h
    unfold timestampFields at h
    split at h
    · rename_i h1 h2 c1 m1 m2 c2 s1 s2 c3 x1 x2 x3 heq
      split at h
      · rename_i hguard
        simp only [Bool.and_eq_true, decide_eq_true_eq] at hguard
        obtain ⟨⟨⟨⟨⟨⟨⟨⟨⟨⟨⟨d1, d2⟩, e1⟩, d3⟩, d4⟩, e2⟩, d5⟩, d6⟩, e3⟩, d7⟩, d8⟩, d9⟩ := hguard
        subst e1; subst e2; subst e3
        have h' := Option.some_inj.mp h
        simp only [Prod.mk.injEq] at h'
        obtain ⟨q1, q2, q3, q4⟩ := h'
        exact ⟨h1, h2, m1, m2, s1, s2, x1, x2, x3, heq, d1, d2, d3, d4, d5, d6,
          d7, d8, d9, q1.symm, q2.symm, q3.symm, q4.symm⟩
      · exact absurd h (by simp)
    · exact absurd h (by simp)
  · rintro ⟨h1, h2, m1, m2, s1, s2, x1, x2, x3, hdata, d1, d2, d3, d4, d5, d6, d7, d8, d9,
      rfl, rfl, rfl, rfl⟩
    unfold timestampFields
    rw [hdata]
    simp [d1, d2, d3, d4, d5, d6, d7, d8, d9]

theorem isDigitCh_bounds {c : Char} (h : isDigitCh c = true) :
    48 ≤ c.toNat ∧ c.toNat ≤ 57 := by
  simpa [isDigitCh, Bool.and_eq_true, decide_eq_true_eq] using h

theorem char_lt_toNat {a b : Char} (h : a < b) : a.toNat < b.toNat := by
  rw [Char.lt_def] at h
  exact h

theorem char_toNat_lt {a b : Char} (h : a.toNat < b.toNat) : a < b := by
  rw [Char.lt_def]
  exact h

theorem char_eq_toNat {a b : Char} (h1 : ¬a < b) (h2 : ¬b < a) : a.toNat = b.toNat := by
  have n1 : ¬a.toNat < b.toNat := fun hc => h1 (char_toNat_lt hc)
  have n2 : ¬b.toNat < a.toNat := fun hc => h2 (char_toNat_lt hc)
  omega

theorem lexMonoAux
    (a1 a2 a4 a5 a7 a8 a10 a11 a12 b1 b2 b4 b5 b7 b8 b10 b11 b12 : Char)
    (da1 : isDigitCh a1 = true) (da2 : isDigitCh a2 = true)
    (da4 : isDigitCh a4 = true) (da5 : isDigitCh a5 = true)
    (da7 : isDigitCh a7 = true) (da8 : isDigitCh a8 = true)
    (da10 : isDigitCh a10 = true) (da11 : isDigitCh a11 = true)
    (da12 : isDigitCh a12 = true)
    (db1 : isDigitCh b1 = true) (db2 : isDigitCh b2 = true)
    (db4 : isDigitCh b4 = true) (db5 : isDigitCh b5 = true)
    (db7 : isDigitCh b7 = true) (db8 : isDigitCh b8 = true)
    (db10 : isDigitCh b10 = true) (db11 : isDigitCh b11 = true)
    (db12 : isDigitCh b12 = true)
    (hmA : 10 * digitVal a4 + digitVal a5 ≤ 59)
    (hsA : 10 * digitVal a7 + digitVal a8 ≤ 59)
    (hmB : 10 * digitVal b4 + digitVal b5 ≤ 59)
    (hsB : 10 * digitVal b7 + digitVal b8 ≤ 59)
    (hlt : List.Lex (fun c d : Char => c < d)
             [b1, b2, ':', b4, b5, ':', b7, b8, ',', b10, b11, b12]
             [a1, a2, ':', a4, a5, ':', a7, a8, ',', a10, a11, a12]) :
    (10 * digitVal b1 + digitVal b2) * (60 * 60 * 1000) +
      (10 * digitVal b4 + digitVal b5) * (60 * 1000) +
      (10 * digitVal b7 + digitVal b8) * 1000 +
      (100 * digitVal b10 + 10 * digitVal b11 + digitVal b12) <
    (10 * digitVal a1 + digitVal a2) * (60 * 60 * 1000) +
      (10 * digitVal a4 + digitVal a5) * (60 * 1000) +
      (10 * digitVal a7 + digitVal a8) * 1000 +
      (100 * digitVal a10 + 10 * digitVal a11 + digitVal a12) := by
  obtain ⟨la1, ua1⟩ := isDigitCh_bounds da1
  obtain ⟨la2, ua2⟩ := isDigitCh_bounds da2
  obtain ⟨la4, ua4⟩ := isDigitCh_bounds da4
  obtain ⟨la5, ua5⟩ := isDigitCh_bounds da5
  obtain ⟨la7, ua7⟩ := isDigitCh_bounds da7
  obtain ⟨la8, ua8⟩ := isDigitCh_bounds da8
  obtain ⟨la10, ua10⟩ := isDigitCh_bounds da10
  obtain ⟨la11, ua11⟩ := isDigitCh_bounds da11
  obtain ⟨la12, ua12⟩ := isDigitCh_bounds da12
  obtain ⟨lb1, ub1⟩ := isDigitCh_bounds db1
  obtain ⟨lb2, ub2⟩ := isDigitCh_bounds db2
  obtain ⟨lb4, ub4⟩ := isDigitCh_bounds db4
  obtain ⟨lb5, ub5⟩ := isDigitCh_bounds db5
  obtain ⟨lb7, ub7⟩ := isDigitCh_bounds db7
  obtain ⟨lb8, ub8⟩ := isDigitCh_bounds db8
  obtain ⟨lb10, ub10⟩ := isDigitCh_bounds db10
  obtain ⟨lb11, ub11⟩ := isDigitCh_bounds db11
  obtain ⟨lb12, ub12⟩ := isDigitCh_bounds db12
  simp only [digitVal] at hmA hsA hmB hsB ⊢
  cases hlt with
  | rel h => have := char_lt_toNat h; omega
  | cons h1 =>
  cases h1 with
  | rel h => have := char_lt_toNat h; omega
  | cons h2 =>
  cases h2 with
  | rel h => exact absurd (char_lt_toNat h) (by decide)
  | cons h3 =>
  cases h3 with
  | rel h => have := char_lt_toNat h; omega
  | cons h4 =>
  cases h4 with
  | rel h => have := char_lt_toNat h; omega
  | cons h5 =>
  cases h5 with
  | rel h => exact absurd (char_lt_toNat h) (by decide)
  | cons h6 =>
  cases h6 with
  | rel h => have := char_lt_toNat h; omega
  | cons h7 =>
  cases h7 with
  | rel h => have := char_lt_toNat h; omega
  | cons h8 =>
  cases h8 with
  | rel h => exact absurd (char_lt_toNat h) (by decide)
  | cons h9 =>
  cases h9 with
  | rel h => have := char_lt_toNat h; omega
  | cons h10 =>
  cases h10 with
  | rel h => have := char_lt_toNat h; omega
  | cons h11 =>
  cases h11 with
  | rel h => have := char_lt_toNat h; omega
  | cons h12 =>
  cases h12

/-- C7: `parseTimestamp` accepts exactly strings of the shape
`HH:MM:SS,mmm` (two-digit hours, minutes, seconds; three-digit
milliseconds; comma separator) and on such input returns
`((HH*60+MM)*60+SS)*1000+mmm`; on every other string,
`getLinesAtTimestamp` reports the invalid-format failure result (and no
fault escapes to the caller). -/
theorem claim_C7 :
    (∀ (s : String) (v : Nat), parseTimestamp s = some v ↔
      ∃ h1 h2 m1 m2 s1 s2 x1 x2 x3 : Char,
        s.data = [h1, h2, ':', m1, m2, ':', s1, s2, ',', x1, x2, x3] ∧
        isDigitCh h1 = true ∧ isDigitCh h2 = true ∧ isDigitCh m1 = true ∧
        isDigitCh m2 = true ∧ isDigitCh s1 = true ∧ isDigitCh s2 = true ∧
        isDigitCh x1 = true ∧ isDigitCh x2 = true ∧ isDigitCh x3 = true ∧
        v = (((10 * digitVal h1 + digitVal h2) * 60 +
              (10 * digitVal m1 + digitVal m2)) * 60 +
             (10 * digitVal s1 + digitVal s2)) * 1000 +
            (100 * digitVal x1 + 10 * digitVal x2 + digitVal x3)) ∧
    (∀ (window : Nat) (fs : FileSys) (cache : SrtCache) (path T : String),
      parseTimestamp T = none →
      (getLinesAtTimestamp window fs cache path T).fst = .err invalidTimestampMessage) := by
  constructor
  · intro s v
    rw [parseTimestamp, parseTimestampChars_eq_some_iff]
    constructor
    · rintro ⟨h1, h2, m1, m2, s1, s2, x1, x2, x3, hd, d1, d2, d3, d4, d5, d6, d7, d8, d9, rfl⟩
      exact ⟨h1, h2, m1, m2, s1, s2, x1, x2, x3, hd, d1, d2, d3, d4, d5, d6, d7, d8, d9,
        by ring⟩
    · rintro ⟨h1, h2, m1, m2, s1, s2, x1, x2, x3, hd, d1, d2, d3, d4, d5, d6, d7, d8, d9, rfl⟩
      exact ⟨h1, h2, m1, m2, s1, s2, x1, x2, x3, hd, d1, d2, d3, d4, d5, d6, d7, d8, d9,
        by ring⟩
  · intro window fs cache path T h
    simp [getLinesAtTimestamp, h]

/-- Witness for C7: the empty string is rejected with the tagged
invalid-format result. -/
theorem claim_C7_witness :
    (getLinesAtTimestamp 100 [] [] "a.srt" "").fst = .err invalidTimestampMessage :=
  claim_C7.2 100 [] [] "a.srt" "" (by decide)

/-- C9: `parseTimestamp` validates only the digit shape, not field
ranges: any string whose fields read off the pattern are `(hh, mm, ss,
ms)` parses to `hh*3600000 + mm*60000 + ss*1000 + ms`, even when the
minute or second field is 60 through 99, as in `"00:99:99,999"`. -/
theorem claim_C9 :
    (∀ (s : String) (hh mm ss ms : Nat), timestampFields s = some (hh, mm, ss, ms) →
       parseTimestamp s = some (hh * 3600000 + mm * 60000 + ss * 1000 + ms)) ∧
    timestampFields "00:99:99,999" = some (0, 99, 99, 999) ∧
    parseTimestamp "00:99:99,999" = some 6039999 := by
  refine ⟨?_, by decide, by decide⟩
  intro s hh mm ss ms h
  rw [timestampFields_eq_some_iff] at h
  obtain ⟨h1, h2, m1, m2, s1, s2, x1, x2, x3, hd, d1, d2, d3, d4, d5, d6, d7, d8, d9,
    rfl, rfl, rfl, rfl⟩ := h
  rw [parseTimestamp, parseTimestampChars_eq_some_iff]
  exact ⟨h1, h2, m1, m2, s1, s2, x1, x2, x3, hd, d1, d2, d3, d4, d5, d6, d7, d8, d9,
    by ring⟩

/-- Witness for C9: `"00:99:99,999"` has second and minute fields of 99
yet parses successfully. -/
theorem claim_C9_witness :
    parseTimestamp "00:99:99,999" = some (0 * 3600000 + 99 * 60000 + 99 * 1000 + 999) :=
  claim_C9.1 "00:99:99,999" 0 99 99 999 (by decide)

/-- C5 counterexample: the claim quantifies over all pattern-valid
strings, but `"00:08:99,999"` is lexicographically earlier than
`"00:09:00,000"` while parsing to the larger millisecond value, so
lexicographic order is not preserved. -/
theorem claim_C5_counterexample :
    ¬ ∀ (A B : String) (tA tB : Nat),
        parseTimestamp A = some tA → parseTimestamp B = some tB →
        B < A → tB < tA := by
  intro h
  have hlt : ("00:08:99,999" : String) < "00:09:00,000" := by
    rw [String.lt_iff_toList_lt]
    decide
  have := h "00:09:00,000" "00:08:99,999" 540000 579999 (by decide) (by decide) hlt
  omega

/-- C5 (amended): `parseTimestamp` is total on pattern-valid strings,
and it is monotonic with respect to lexicographic string order on the
strings whose minute and second fields are in range (at most 59). -/
theorem claim_C5 :
    (∀ (s : String) (hh mm ss ms : Nat), timestampFields s = some (hh, mm, ss, ms) →
       parseTimestamp s = some (((hh * 60 + mm) * 60 + ss) * 1000 + ms)) ∧
    (∀ (A B : String) (hhA mmA ssA msA hhB mmB ssB msB tA tB : Nat),
       timestampFields A = some (hhA, mmA, ssA, msA) →
       timestampFields B = some (hhB, mmB, ssB, msB) →
       mmA ≤ 59 → ssA ≤ 59 → mmB ≤ 59 → ssB ≤ 59 →
       parseTimestamp A = some tA → parseTimestamp B = some tB →
       B < A → tB < tA) := by
  have total : ∀ (s : String) (hh mm ss ms : Nat),
      timestampFields s = some (hh, mm, ss, ms) →
      parseTimestamp s = some (((hh * 60 + mm) * 60 + ss) * 1000 + ms) := by
    intro s hh mm ss ms h
    rw [timestampFields_eq_some_iff] at h
    obtain ⟨h1, h2, m1, m2, s1, s2, x1, x2, x3, hd, d1, d2, d3, d4, d5, d6, d7, d8, d9,
      rfl, rfl, rfl, rfl⟩ := h
    rw [parseTimestamp, parseTimestampChars_eq_some_iff]
    exact ⟨h1, h2, m1, m2, s1, s2, x1, x2, x3, hd, d1, d2, d3, d4, d5, d6, d7, d8, d9,
      by ring⟩
  refine ⟨total, ?_⟩
  intro A B hhA mmA ssA msA hhB mmB ssB msB tA tB hA hB hmA hsA hmB hsB hpA hpB hlt
  have vA := total A hhA mmA ssA msA hA
  have vB := total B hhB mmB ssB msB hB
  rw [hpA] at vA
  rw [hpB] at vB
  have eA := Option.some_inj.mp vA
  have eB := Option.some_inj.mp vB
  rw [timestampFields_eq_some_iff] at hA hB
  obtain ⟨a1, a2, a4, a5, a7, a8, a10, a11, a12, hdA, da1, da2, da4, da5, da7, da8,
    da10, da11, da12, qA1, qA2, qA3, qA4⟩ := hA
  obtain ⟨b1, b2, b4, b5, b7, b8, b10, b11, b12, hdB, db1, db2, db4, db5, db7, db8,
    db10, db11, db12, qB1, qB2, qB3, qB4⟩ := hB
  have hlex : List.Lex (fun c d : Char => c < d) B.data A.data :=
    String.lt_iff_toList_lt.mp hlt
  rw [hdA, hdB] at hlex
  have key := lexMonoAux a1 a2 a4 a5 a7 a8 a10 a11 a12 b1 b2 b4 b5 b7 b8 b10 b11 b12
    da1 da2 da4 da5 da7 da8 da10 da11 da12 db1 db2 db4 db5 db7 db8 db10 db11 db12
    (by omega) (by omega) (by omega) (by omega) hlex
  omega

theorem cacheGet_cacheSet (cache : SrtCache) (path : String) (v : SrtCacheValue) :
    cacheGet (cacheSet cache path v) path = some v := by
  induction cache with
  | nil => simp [cacheGet, cacheSet]
  | cons kv rest ih =>
    by_cases h : kv.1 == path
    · simp [cacheGet, cacheSet, h]
    · simp only [cacheSet, h, if_false, Bool.false_eq_true]
      simpa [cacheGet, h] using ih

theorem getSrtData_of_uncached (fs : FileSys) (cache : SrtCache) (path : String)
    (fd : FileData) (hf : fsGet fs path = some fd) (hc : cacheGet cache path = none) :
    getSrtData fs cache path =
      .ok (buildSrtValue fd, cacheSet cache path (buildSrtValue fd)) := by
  simp [getSrtData, hf, hc]

/-- C2: `getSrtData` re-reads and re-indexes exactly when the cache has
no entry for the path or the on-disk modification time differs from the
cached version, replacing any previous cache entry; when the version
token matches it returns the cached entry and the cache unchanged, so an
immediate second call returns the same value. -/
theorem claim_C2 (fs : FileSys) (cache : SrtCache) (path : String) (fd : FileData)
    (hf : fsGet fs path = some fd) :
    ((cacheGet cache path = none ∨
        (∃ c, cacheGet cache path = some c ∧ c.version ≠ fd.mtime)) →
      getSrtData fs cache path =
        .ok (buildSrtValue fd, cacheSet cache path (buildSrtValue fd)) ∧
      cacheGet (cacheSet cache path (buildSrtValue fd)) path = some (buildSrtValue fd) ∧
      getSrtData fs (cacheSet cache path (buildSrtValue fd)) path =
        .ok (buildSrtValue fd, cacheSet cache path (buildSrtValue fd))) ∧
    (∀ c, cacheGet cache path = some c → c.version = fd.mtime →
      getSrtData fs cache path = .ok (c, cache)) := by
  constructor
  · intro hstale
    have hstep : getSrtData fs cache path =
        .ok (buildSrtValue fd, cacheSet cache path (buildSrtValue fd)) := by
      rcases hstale with hnone | ⟨c, hc, hne⟩
      · exact getSrtData_of_uncached fs cache path fd hf hnone
      · simp [getSrtData, hf, hc, hne]
    refine ⟨hstep, cacheGet_cacheSet cache path (buildSrtValue fd), ?_⟩
    simp [getSrtData, hf, cacheGet_cacheSet,
      show (buildSrtValue fd).version = fd.mtime from rfl]
  · intro c hc hv
    simp [getSrtData, hf, hc, hv]

/-- Witness for C2: a one-file filesystem and an empty cache. -/
theorem claim_C2_witness :
    getSrtData [("a.srt", ⟨"x", 5⟩)] [] "a.srt" =
      .ok (buildSrtValue ⟨"x", 5⟩, cacheSet [] "a.srt" (buildSrtValue ⟨"x", 5⟩)) :=
  ((claim_C2 [("a.srt", ⟨"x", 5⟩)] [] "a.srt" ⟨"x", 5⟩ (by decide)).1
    (Or.inl (by decide))).1

/-- Sortedness assumption on the indexed caption ranges: each range is
well-formed and consecutive ranges are disjoint in ascending order. -/
def rangesSorted (entries : List SrtEntry) : Prop :=
  (∀ e ∈ entries, e.start ≤ e.end_) ∧
  List.Pairwise (fun a b => a.end_ < b.start) entries

theorem pairwise_get?_rel {entries : List SrtEntry}
    (hp : List.Pairwise (fun a b => a.end_ < b.start) entries)
    {i j : Nat} (hij : i < j) {a b : SrtEntry}
    (ha : entries.get? i = some a) (hb : entries.get? j = some b) :
    a.end_ < b.start := by
  have hi : i < entries.length := (List.get?_eq_some.mp ha).1
  have hj : j < entries.length := (List.get?_eq_some.mp hb).1
  have hrel := List.pairwise_iff_get.mp hp ⟨i, hi⟩ ⟨j, hj⟩ (Fin.mk_lt_mk.mpr hij)
  rw [List.get?_eq_get hi, Option.some_inj] at ha
  rw [List.get?_eq_get hj, Option.some_inj] at hb
  rw [ha, hb] at hrel
  exact hrel

theorem rangesSorted_unique {entries : List SrtEntry} (hs : rangesSorted entries)
    (t : Nat) {i j : Nat} {a b : SrtEntry}
    (hi : entries.get? i = some a) (hj : entries.get? j = some b)
    (ha1 : a.start ≤ t) (ha2 : t ≤ a.end_) (hb1 : b.start ≤ t) (hb2 : t ≤ b.end_) :
    i = j := by
  by_contra hne
  rcases Nat.lt_or_ge i j with hij | hij
  · have := pairwise_get?_rel hs.2 hij hi hj
    omega
  · have hji : j < i := by omega
    have := pairwise_get?_rel hs.2 hji hj hi
    omega

theorem bsearchEntries_sound (entries : List SrtEntry) (t : Nat) :
    ∀ (n : Nat) (l r : Int), (r + 1 - l).toNat ≤ n →
      ∀ e : SrtEntry, bsearchEntries entries t l r = some e →
        e ∈ entries ∧ e.start ≤ t ∧ t ≤ e.end_ := by
  intro n
  induction n with
  | zero =>
    intro l r hn e h
    rw [bsearchEntries, if_neg (by omega)] at h
    exact absurd h (by simp)
  | succ n ih =>
    intro l r hn e h
    rw [bsearchEntries] at h
    by_cases hlr : l ≤ r
    · rw [if_pos hlr] at h
      split at h
      · exact absurd h (by simp)
      · rename_i entry hget
        split at h
        · exact ih l ((l + r) / 2 - 1) (by omega) e h
        · split at h
          · exact ih ((l + r) / 2 + 1) r (by omega) e h
          · rename_i hnlt hngt
            obtain rfl := Option.some_inj.mp h
            exact ⟨List.get?_mem hget, by omega, by omega⟩
    · rw [if_neg hlr] at h
      exact absurd h (by simp)

theorem bsearchEntries_complete (entries : List SrtEntry) (t : Nat)
    (hs : rangesSorted entries) :
    ∀ (n : Nat) (l r : Int) (i : Nat) (e : SrtEntry),
      (r + 1 - l).toNat ≤ n →
      entries.get? i = some e → e.start ≤ t → t ≤ e.end_ →
      0 ≤ l → l ≤ i → (i : Int) ≤ r → r < entries.length →
      bsearchEntries entries t l r = some e := by
  intro n
  induction n with
  | zero =>
    intro l r i e hn hi h1 h2 h0 hli hir hr
    exact absurd hn (by omega)
  | succ n ih =>
    intro l r i e hn hi h1 h2 h0 hli hir hr
    rw [bsearchEntries, if_pos (by omega)]
    have hmlen : (((l + r) / 2)).toNat < entries.length := by omega
    split
    case h_1 heq =>
      rw [List.get?_eq_none] at heq
      exact absurd heq (by omega)
    case h_2 em hem =>
    have hmem : em ∈ entries := List.get?_mem hem
    have hwf : em.start ≤ em.end_ := hs.1 em hmem
    by_cases hlt : t < em.start
    · rw [if_pos hlt]
      have hiM : i < (((l + r) / 2)).toNat := by
        rcases Nat.lt_or_ge i (((l + r) / 2)).toNat with hc | hc
        · exact hc
        · exfalso
          rcases Nat.eq_or_lt_of_le hc with hc' | hc'
          · rw [hc'] at hem
            rw [hem] at hi
            obtain rfl := Option.some_inj.mp hi
            omega
          · have := pairwise_get?_rel hs.2 hc' hem hi
            omega
      exact ih l ((l + r) / 2 - 1) i e (by omega) hi h1 h2 h0 hli (by omega) (by omega)
    · rw [if_neg hlt]
      by_cases hgt : em.end_ < t
      · rw [if_pos hgt]
        have hiM : (((l + r) / 2)).toNat < i := by
          rcases Nat.lt_or_ge (((l + r) / 2)).toNat i with hc | hc
          · exact hc
          · exfalso
            rcases Nat.eq_or_lt_of_le hc with hc' | hc'
            · rw [← hc'] at hem
              rw [hem] at hi
              obtain rfl := Option.some_inj.mp hi
              omega
            · have := pairwise_get?_rel hs.2 hc' hi hem
              omega
        exact ih ((l + r) / 2 + 1) r i e (by omega) hi h1 h2 (by omega) (by omega) hir hr
      · rw [if_neg hgt]
        have : (((l + r) / 2)).toNat = i :=
          rangesSorted_unique hs t hem hi (by omega) (by omega) h1 h2
        rw [this] at hem
        rw [hem, Option.some_inj] at hi
        rw [hi]

/-- C1: for a file whose indexed caption ranges are well-formed,
non-overlapping and sorted ascending, resolving a timestamp inside
block `i` succeeds and returns exactly block `i`'s entry lines, and
resolving a timestamp contained in no block returns the tagged no-match
failure, with no fallback to a nearest block. -/
theorem claim_C1 (window : Nat) (fs : FileSys) (cache : SrtCache) (path : String)
    (fd : FileData) (T : String) (t : Nat)
    (hfile : fsGet fs path = some fd)
    (hcache : cacheGet cache path = none)
    (hparse : parseTimestamp T = some t)
    (hsorted : rangesSorted (extractEntries (splitLines fd.content))) :
    (∀ (i : Nat) (e : SrtEntry),
        (extractEntries (splitLines fd.content)).get? i = some e →
        e.start ≤ t → t ≤ e.end_ →
        (getLinesAtTimestamp window fs cache path T).fst.entry? = some e.entryLines) ∧
    ((∀ e ∈ extractEntries (splitLines fd.content), t < e.start ∨ e.end_ < t) →
        (getLinesAtTimestamp window fs cache path T).fst = .err noMatchMessage) := by
  have hdata := getSrtData_of_uncached fs cache path fd hfile hcache
  constructor
  · intro i e hi h1 h2
    have hilen : i < (extractEntries (splitLines fd.content)).length :=
      (List.get?_eq_some.mp hi).1
    have hbs : bsearchEntries (extractEntries (splitLines fd.content)) t 0
        (((extractEntries (splitLines fd.content)).length : Int) - 1) = some e := by
      refine bsearchEntries_complete _ t hsorted
        (((extractEntries (splitLines fd.content)).length : Int) - 1 + 1 - 0).toNat
        0 _ i e (le_refl _) hi h1 h2 (by omega) (by omega) (by omega) (by omega)
    simp [getLinesAtTimestamp, hparse, hdata, buildSrtValue, hbs, TsResult.entry?]
  · intro hnone
    cases hbs : bsearchEntries (extractEntries (splitLines fd.content)) t 0
        (((extractEntries (splitLines fd.content)).length : Int) - 1) with
    | some e =>
      exfalso
      obtain ⟨hmem, h1, h2⟩ := bsearchEntries_sound _ t _ 0 _ (le_refl _) e hbs
      rcases hnone e hmem with hcl | hcl <;> omega
    | none =>
      simp [getLinesAtTimestamp, hparse, hdata, buildSrtValue, hbs]

/-- Witness for C1: a two-block file, a timestamp inside the first
block, and a timestamp falling between the two blocks. -/
theorem claim_C1_witness :
    (getLinesAtTimestamp 100
        [("a.srt", ⟨"1\n00:00:01,000 --> 00:00:02,500\nhello\n\n2\n00:00:03,000 --> 00:00:04,000\nbye", 7⟩)]
        [] "a.srt" "00:00:02,000").fst.entry? =
      some [⟨1, "1"⟩, ⟨2, "00:00:01,000 --> 00:00:02,500"⟩, ⟨3, "hello"⟩] ∧
    (getLinesAtTimestamp 100
        [("a.srt", ⟨"1\n00:00:01,000 --> 00:00:02,500\nhello\n\n2\n00:00:03,000 --> 00:00:04,000\nbye", 7⟩)]
        [] "a.srt" "00:00:02,750").fst = .err noMatchMessage := by
  constructor
  · exact (claim_C1 100 _ [] "a.srt" ⟨"1\n00:00:01,000 --> 00:00:02,500\nhello\n\n2\n00:00:03,000 --> 00:00:04,000\nbye", 7⟩
      "00:00:02,000" 2000 (by decide) (by decide) (by decide) ⟨by decide, by decide⟩).1 0
      ⟨1000, 2500, 1, [⟨1, "1"⟩, ⟨2, "00:00:01,000 --> 00:00:02,500"⟩, ⟨3, "hello"⟩]⟩
      (by decide) (by decide) (by decide)
  · exact (claim_C1 100 _ [] "a.srt" ⟨"1\n00:00:01,000 --> 00:00:02,500\nhello\n\n2\n00:00:03,000 --> 00:00:04,000\nbye", 7⟩
      "00:00:02,750" 2750 (by decide) (by decide) (by decide) ⟨by decide, by decide⟩).2
      (by decide)

theorem digit_not_whitespace {c : Char} (h : isDigitCh c = true) : jsWhitespace c = false := by
  obtain ⟨h1, h2⟩ := isDigitCh_bounds h
  cases hw : jsWhitespace c
  · rfl
  · exfalso
    simp only [jsWhitespace, Bool.or_eq_true, Bool.and_eq_true, decide_eq_true_eq] at hw
    omega

theorem takeTimestampShape_head {l : List Char} {p : List Char × List Char}
    (h : takeTimestampShape l = some p) :
    ∃ c rest, l = c :: rest ∧ isDigitCh c = true := by
  unfold takeTimestampShape at h
  split at h
  · rename_i h1 h2 c1 m1 m2 c2 s1 s2 c3 x1 x2 x3 rest
    split at h
    · rename_i hg
      simp only [Bool.and_eq_true, decide_eq_true_eq] at hg
      exact ⟨h1, _, rfl, hg.1.1.1.1.1.1.1.1.1.1.1⟩
    · exact absurd h (by simp)
  · exact absurd h (by simp)

theorem matchTimingLine_nonblank {line : String} {g : String × String}
    (h : matchTimingLine line = some g) : isBlank line = false := by
  unfold matchTimingLine at h
  cases hts : takeTimestampShape line.data with
  | none => rw [hts] at h; exact absurd h (by simp)
  | some p =>
    obtain ⟨c, rest, hdata, hdig⟩ := takeTimestampShape_head hts
    simp [isBlank, hdata, digit_not_whitespace hdig]

theorem scanBack_le (lines : List String) : ∀ i, scanBack lines i ≤ i := by
  intro i
  induction i with
  | zero => simp [scanBack]
  | succ i ih =>
    unfold scanBack
    split
    · exact Nat.le_refl _
    · exact Nat.le_trans ih (Nat.le_succ i)

theorem scanBack_nonblank (lines : List String) :
    ∀ i j, scanBack lines i ≤ j → j < i → isBlank (lines.getD j "") = false := by
  intro i
  induction i with
  | zero => intro j h1 h2; omega
  | succ i ih =>
    intro j h1 h2
    by_cases hb : isBlank (lines.getD i "") = true
    · rw [show scanBack lines (i + 1) = i + 1 from by rw [scanBack, if_pos hb]] at h1
      omega
    · rw [show scanBack lines (i + 1) = scanBack lines i from by rw [scanBack, if_neg hb]] at h1
      rcases Nat.lt_or_ge j i with hj | hj
      · exact ih j h1 hj
      · have hji : j = i := by omega
        subst hji
        simpa using hb

theorem scanBack_boundary (lines : List String) :
    ∀ i, scanBack lines i = 0 ∨
      isBlank (lines.getD (scanBack lines i - 1) "") = true := by
  intro i
  induction i with
  | zero => exact Or.inl (by simp [scanBack])
  | succ i ih =>
    by_cases hb : isBlank (lines.getD i "") = true
    · right
      rw [show scanBack lines (i + 1) = i + 1 from by rw [scanBack, if_pos hb]]
      simpa using hb
    · rw [show scanBack lines (i + 1) = scanBack lines i from by rw [scanBack, if_neg hb]]
      exact ih

theorem drop_cons_of_get? {lines : List String} {c : Nat} {s : String}
    (h : lines.get? c = some s) : lines.drop c = s :: lines.drop (c + 1) := by
  have hlt : c < lines.length := (List.get?_eq_some.mp h).1
  rw [List.drop_eq_get_cons hlt]
  rw [List.get?_eq_get hlt, Option.some_inj] at h
  rw [h]

theorem collectForwardAux_map (l : List String) :
    ∀ c, (collectForwardAux l c).map (·.lineNumber) =
      List.range' (c + 1) (collectForwardAux l c).length := by
  induction l with
  | nil => intro c; simp [collectForwardAux]
  | cons s rest ih =>
    intro c
    by_cases hb : isBlank s = true
    · simp [collectForwardAux, hb]
    · simp only [collectForwardAux, hb, Bool.false_eq_true, if_false, List.map_cons,
        List.length_cons]
      rw [List.range'_succ]
      rw [ih (c + 1)]

theorem collectForwardAux_mem (l : List String) :
    ∀ c nl, nl ∈ collectForwardAux l c →
      ∃ k, l.get? k = some nl.content ∧ nl.lineNumber = c + k + 1 ∧
        isBlank nl.content = false := by
  induction l with
  | nil => intro c nl h; simp [collectForwardAux] at h
  | cons s rest ih =>
    intro c nl h
    by_cases hb : isBlank s = true
    · simp [collectForwardAux, hb] at h
    · simp only [collectForwardAux, hb, Bool.false_eq_true, if_false] at h
      rcases List.mem_cons.mp h with rfl | h'
      · exact ⟨0, by simp, by simp, by simpa using hb⟩
      · obtain ⟨k, hk1, hk2, hk3⟩ := ih (c + 1) nl h'
        exact ⟨k + 1, by simpa using hk1, by omega, hk3⟩

theorem collectForward_covers (lines : List String) :
    ∀ (d c m : Nat), c ≤ m → m - c ≤ d →
      (∀ j, c ≤ j → j ≤ m → ∃ s, lines.get? j = some s ∧ isBlank s = false) →
      m - c < (collectForward lines c).length := by
  intro d
  induction d with
  | zero =>
    intro c m hcm hd h
    obtain ⟨s, hs, hb⟩ := h c (Nat.le_refl c) hcm
    rw [collectForward, drop_cons_of_get? hs]
    simp [collectForwardAux, hb]
    omega
  | succ d ih =>
    intro c m hcm hd h
    obtain ⟨s, hs, hb⟩ := h c (Nat.le_refl c) hcm
    rw [collectForward, drop_cons_of_get? hs]
    rcases Nat.eq_or_lt_of_le hcm with rfl | hlt
    · simp [collectForwardAux, hb]
    · have ih' := ih (c + 1) m (by omega) (by omega) (fun j hj1 hj2 => h j (by omega) hj2)
      rw [collectForward] at ih'
      simp only [collectForwardAux, hb, Bool.false_eq_true, if_false, List.length_cons]
      omega

theorem collectForwardAux_stop :
    ∀ (l : List String) (lines : List String) (c : Nat), l = lines.drop c →
      lines.get? (c + (collectForwardAux l c).length) = none ∨
      ∃ s, lines.get? (c + (collectForwardAux l c).length) = some s ∧
        isBlank s = true := by
  intro l
  induction l with
  | nil =>
    intro lines c hdrop
    left
    have hlen : lines.length ≤ c := List.drop_eq_nil_iff_le.mp hdrop.symm
    simp only [collectForwardAux, List.length_nil, Nat.add_zero]
    rw [List.get?_eq_none]
    omega
  | cons s rest ih =>
    intro lines c hdrop
    have hs : lines.get? c = some s := by
      have h0 := List.get?_drop lines c 0
      rw [← hdrop] at h0
      simpa using h0.symm
    have hrest : rest = lines.drop (c + 1) := by
      have h1 := congrArg (List.drop 1) hdrop
      simpa [List.drop_drop] using h1
    by_cases hb : isBlank s = true
    · right
      exact ⟨s, by simpa [collectForwardAux, hb] using hs, hb⟩
    · have ih' := ih lines (c + 1) hrest
      simp only [collectForwardAux, hb, Bool.false_eq_true, if_false, List.length_cons]
      rw [show c + ((collectForwardAux rest (c + 1)).length + 1) =
          c + 1 + (collectForwardAux rest (c + 1)).length from by omega]
      exact ih'

theorem mem_extractEntriesAux (lines : List String) :
    ∀ (l : List String) (i0 : Nat) (e : SrtEntry), e ∈ extractEntriesAux lines l i0 →
      ∃ (k : Nat) (line g1 g2 : String) (sMs eMs : Nat),
        l.get? k = some line ∧
        matchTimingLine line = some (g1, g2) ∧
        parseTimestamp g1 = some sMs ∧ parseTimestamp g2 = some eMs ∧
        e = { start := sMs, end_ := eMs, timestampLine := i0 + k,
              entryLines := collectForward lines (scanBack lines (i0 + k)) } := by
  intro l
  induction l with
  | nil => intro i0 e h; simp [extractEntriesAux] at h
  | cons line rest ih =>
    intro i0 e h
    rw [extractEntriesAux] at h
    split at h
    · obtain ⟨k, line', g1, g2, sMs, eMs, hk1, hk2, hk3, hk4, hk5⟩ := ih (i0 + 1) e h
      rw [show i0 + 1 + k = i0 + (k + 1) from by omega] at hk5
      exact ⟨k + 1, line', g1, g2, sMs, eMs, by simpa using hk1, hk2, hk3, hk4, hk5⟩
    · split at h
      · rename_i g1 g2 hm o1 o2 sMs eMs hp1 hp2
        rcases List.mem_cons.mp h with rfl | h'
        · exact ⟨0, line, g1, g2, sMs, eMs, by simp, hm, hp1, hp2, by simp⟩
        · obtain ⟨k, line', g1', g2', sMs', eMs', hk1, hk2, hk3, hk4, hk5⟩ :=
            ih (i0 + 1) e h'
          rw [show i0 + 1 + k = i0 + (k + 1) from by omega] at hk5
          exact ⟨k + 1, line', g1', g2', sMs', eMs', by simpa using hk1, hk2, hk3, hk4, hk5⟩
      · obtain ⟨k, line', g1', g2', sMs', eMs', hk1, hk2, hk3, hk4, hk5⟩ := ih (i0 + 1) e h
        rw [show i0 + 1 + k = i0 + (k + 1) from by omega] at hk5
        exact ⟨k + 1, line', g1', g2', sMs', eMs', by simpa using hk1, hk2, hk3, hk4, hk5⟩

theorem extractEntries_span (lines : List String) (e : SrtEntry)
    (he : e ∈ extractEntries lines) :
    0 < e.entryLines.length ∧
    e.entryLines.map (·.lineNumber) =
      List.range' (scanBack lines e.timestampLine + 1) e.entryLines.length ∧
    scanBack lines e.timestampLine ≤ e.timestampLine ∧
    e.timestampLine + 1 ≤ scanBack lines e.timestampLine + e.entryLines.length ∧
    (∀ nl ∈ e.entryLines, lines.get? (nl.lineNumber - 1) = some nl.content ∧
      isBlank nl.content = false) ∧
    (scanBack lines e.timestampLine = 0 ∨
      ∃ s, lines.get? (scanBack lines e.timestampLine - 1) = some s ∧
        isBlank s = true) ∧
    (lines.get? (scanBack lines e.timestampLine + e.entryLines.length) = none ∨
      ∃ s, lines.get? (scanBack lines e.timestampLine + e.entryLines.length) = some s ∧
        isBlank s = true) := by
  obtain ⟨k, line, g1, g2, sMs, eMs, hk, hm, hp1, hp2, he'⟩ :=
    mem_extractEntriesAux lines lines 0 e he
  subst he'
  simp only [Nat.zero_add]
  have hkline : lines.get? k = some line := hk
  have hklen : k < lines.length := (List.get?_eq_some.mp hkline).1
  have hlineblank : isBlank line = false := matchTimingLine_nonblank hm
  have hsb := scanBack_le lines k
  have hcov : ∀ j, scanBack lines k ≤ j → j ≤ k →
      ∃ s, lines.get? j = some s ∧ isBlank s = false := by
    intro j hj1 hj2
    rcases Nat.eq_or_lt_of_le hj2 with rfl | hj
    · exact ⟨line, hkline, hlineblank⟩
    · have hjlen : j < lines.length := by omega
      have hnb := scanBack_nonblank lines k j hj1 hj
      obtain ⟨s, hs⟩ : ∃ s, lines.get? j = some s := by
        rw [List.get?_eq_get hjlen]
        exact ⟨_, rfl⟩
      refine ⟨s, hs, ?_⟩
      rwa [List.getD_eq_get?, hs, Option.getD_some] at hnb
  have hlen : k - scanBack lines k < (collectForward lines (scanBack lines k)).length :=
    collectForward_covers lines (k - scanBack lines k) (scanBack lines k) k hsb
      (Nat.le_refl _) hcov
  refine ⟨by omega, ?_, hsb, by omega, ?_, ?_, ?_⟩
  · exact collectForwardAux_map (lines.drop (scanBack lines k)) (scanBack lines k)
  · intro nl hnl
    obtain ⟨j, hj1, hj2, hj3⟩ :=
      collectForwardAux_mem (lines.drop (scanBack lines k)) (scanBack lines k) nl hnl
    rw [List.get?_drop] at hj1
    constructor
    · rw [show nl.lineNumber - 1 = scanBack lines k + j from by omega]
      exact hj1
    · exact hj3
  · rcases scanBack_boundary lines k with h0 | hblank
    · exact Or.inl h0
    · rcases Nat.eq_zero_or_pos (scanBack lines k) with h0 | hpos
      · exact Or.inl h0
      · right
        have hjlen : scanBack lines k - 1 < lines.length := by omega
        obtain ⟨s, hs⟩ : ∃ s, lines.get? (scanBack lines k - 1) = some s := by
          rw [List.get?_eq_get hjlen]
          exact ⟨_, rfl⟩
        refine ⟨s, hs, ?_⟩
        rwa [List.getD_eq_get?, hs, Option.getD_some] at hblank
  · exact collectForwardAux_stop (lines.drop (scanBack lines k)) lines (scanBack lines k) rfl

/-- C4 counterexample: the indexer does not compare the two parsed
timestamps, so a reversed timing line is indexed with `end_ < start`,
refuting the `start_ms ≤ end_ms` conjunct of the claim. -/
theorem claim_C4_counterexample :
    ¬ ∀ e ∈ extractEntries ["00:00:10,000 --> 00:00:05,000"], e.start ≤ e.end_ := by
  decide

/-- C4 (amended): every CaptionBlock produced by the indexer has
non-empty entry lines, contiguous by line number — the maximal
non-blank span around the timing line, bounded by blank lines or the
file edges — and the timing line's number falls within the entry-lines
range; `start_ms ≤ end_ms`, however, is not enforced by the indexer and
can fail (see the counterexample). -/
theorem claim_C4 (lines : List String) (e : SrtEntry) (he : e ∈ extractEntries lines) :
    ∃ c : Nat,
      0 < e.entryLines.length ∧
      e.entryLines.map (·.lineNumber) = List.range' (c + 1) e.entryLines.length ∧
      c + 1 ≤ e.timestampLine + 1 ∧
      e.timestampLine + 1 ≤ c + e.entryLines.length ∧
      (∀ nl ∈ e.entryLines, lines.get? (nl.lineNumber - 1) = some nl.content ∧
        isBlank nl.content = false) ∧
      (c = 0 ∨ ∃ s, lines.get? (c - 1) = some s ∧ isBlank s = true) ∧
      (lines.get? (c + e.entryLines.length) = none ∨
        ∃ s, lines.get? (c + e.entryLines.length) = some s ∧ isBlank s = true) := by
  obtain ⟨h1, h2, h3, h4, h5, h6, h7⟩ := extractEntries_span lines e he
  exact ⟨scanBack lines e.timestampLine, h1, h2, by omega, h4, h5, h6, h7⟩

/-- Witness for C4: the first block of the sample file. -/
theorem claim_C4_witness :
    ∃ c : Nat,
      0 < demoEntry0.entryLines.length ∧
      demoEntry0.entryLines.map (·.lineNumber) =
        List.range' (c + 1) demoEntry0.entryLines.length ∧
      c + 1 ≤ demoEntry0.timestampLine + 1 ∧
      demoEntry0.timestampLine + 1 ≤ c + demoEntry0.entryLines.length ∧
      (∀ nl ∈ demoEntry0.entryLines,
        (splitLines demoContent).get? (nl.lineNumber - 1) = some nl.content ∧
        isBlank nl.content = false) ∧
      (c = 0 ∨ ∃ s, (splitLines demoContent).get? (c - 1) = some s ∧
        isBlank s = true) ∧
      ((splitLines demoContent).get? (c + demoEntry0.entryLines.length) = none ∨
        ∃ s, (splitLines demoContent).get? (c + demoEntry0.entryLines.length) = some s ∧
          isBlank s = true) :=
  claim_C4 (splitLines demoContent) demoEntry0 (by decide)

/-- C3: on a successful resolution, the result is the success record
whose `startLine`/`endLine` are the 1-based bounds of the window of
`init_window` raw lines before and after the matched timing line,
clamped to the file bounds; whose `entry` is the matched block's own
entry lines (these carry the block's line numbers, the timing line's
number among them); and whose `contextLines` is exactly the raw lines
of that window joined with newlines. -/
theorem claim_C3 (window : Nat) (fs : FileSys) (cache : SrtCache) (path : String)
    (fd : FileData) (T : String) (t : Nat) (i : Nat) (e : SrtEntry)
    (hfile : fsGet fs path = some fd)
    (hcache : cacheGet cache path = none)
    (hparse : parseTimestamp T = some t)
    (hsorted : rangesSorted (extractEntries (splitLines fd.content)))
    (hi : (extractEntries (splitLines fd.content)).get? i = some e)
    (h1 : e.start ≤ t) (h2 : t ≤ e.end_) :
    (getLinesAtTimestamp window fs cache path T).fst =
      .ok (max 1 (e.timestampLine + 1 - window))
        (min (splitLines fd.content).length (e.timestampLine + 1 + window))
        e.entryLines
        (String.intercalate "\n"
          (((splitLines fd.content).drop (max 1 (e.timestampLine + 1 - window) - 1)).take
            (min (splitLines fd.content).length (e.timestampLine + 1 + window) + 1 -
              max 1 (e.timestampLine + 1 - window)))) ∧
    (e.timestampLine + 1) ∈ e.entryLines.map (·.lineNumber) := by
  have hdata := getSrtData_of_uncached fs cache path fd hfile hcache
  have hilen : i < (extractEntries (splitLines fd.content)).length :=
    (List.get?_eq_some.mp hi).1
  have hbs : bsearchEntries (extractEntries (splitLines fd.content)) t 0
      (((extractEntries (splitLines fd.content)).length : Int) - 1) = some e :=
    bsearchEntries_complete _ t hsorted
      (((extractEntries (splitLines fd.content)).length : Int) - 1 + 1 - 0).toNat
      0 _ i e (le_refl _) hi h1 h2 (by omega) (by omega) (by omega) (by omega)
  constructor
  · rw [show max 1 (e.timestampLine + 1 - window) = e.timestampLine + 1 - 1 - window + 1
      from by omega]
    rw [show min (splitLines fd.content).length (e.timestampLine + 1 + window) =
      min (splitLines fd.content).length (e.timestampLine + 1 - 1 + window + 1)
      from by omega]
    rw [show e.timestampLine + 1 - 1 - window + 1 - 1 = e.timestampLine + 1 - 1 - window
      from by omega]
    rw [show min (splitLines fd.content).length (e.timestampLine + 1 - 1 + window + 1) + 1 -
      (e.timestampLine + 1 - 1 - window + 1) =
      min (splitLines fd.content).length (e.timestampLine + 1 - 1 + window + 1) -
      (e.timestampLine + 1 - 1 - window) from by omega]
    simp [getLinesAtTimestamp, hparse, hdata, buildSrtValue, hbs]
  · obtain ⟨hlen0, hmap, hle, hcov, hall, hbd, hstop⟩ :=
      extractEntries_span (splitLines fd.content) e (List.get?_mem hi)
    rw [hmap, List.mem_range'_1]
    omega

/-- Witness for C3: resolving `"00:00:02,000"` in the sample file with
`init_window = 1`. -/
theorem claim_C3_witness :
    (getLinesAtTimestamp 1 demoFs [] "a.srt" "00:00:02,000").fst =
      .ok (max 1 (demoEntry0.timestampLine + 1 - 1))
        (min (splitLines demoContent).length (demoEntry0.timestampLine + 1 + 1))
        demoEntry0.entryLines
        (String.intercalate "\n"
          (((splitLines demoContent).drop (max 1 (demoEntry0.timestampLine + 1 - 1) - 1)).take
            (min (splitLines demoContent).length (demoEntry0.timestampLine + 1 + 1) + 1 -
              max 1 (demoEntry0.timestampLine + 1 - 1)))) ∧
    (demoEntry0.timestampLine + 1) ∈ demoEntry0.entryLines.map (·.lineNumber) :=
  claim_C3 1 demoFs [] "a.srt" ⟨demoContent, 7⟩ "00:00:02,000" 2000 0 demoEntry0
    (by decide) (by decide) (by decide) ⟨by decide, by decide⟩ (by decide)
    (by decide) (by decide)

/-- C6: the window readers never fail on out-of-range line numbers:
`readPreviousLines` with `lineNumber ≤ 1` returns the empty success
result with a null first line number (for any filesystem and cache),
and `readNextLines` on an existing file with `lineNumber` at or beyond
the total line count returns the empty success result with a null last
line number — never an error. -/
theorem claim_C6 (ctxWindow : Nat) (fs : FileSys) (cache : SrtCache) (path : String) :
    (∀ n : Int, n ≤ 1 →
      (readPreviousLines ctxWindow fs cache path n).fst = .ok none [] (some startNote)) ∧
    (∀ (fd : FileData) (n : Int), fsGet fs path = some fd → cacheGet cache path = none →
      ((splitLines fd.content).length : Int) ≤ n →
      (readNextLines ctxWindow fs cache path n).fst = .ok none [] (some endNote)) := by
  constructor
  · intro n hn
    simp [readPreviousLines, hn]
  · intro fd n hf hc hlen
    have hdata := getSrtData_of_uncached fs cache path fd hf hc
    simp [readNextLines, loadSrtLines, hdata, buildSrtValue, hlen]

/-- Witness for C6: a two-line file, read before line 1 and read after
line 2. -/
theorem claim_C6_witness :
    (readPreviousLines 300 [("a.srt", ⟨"a\nb", 3⟩)] [] "a.srt" 1).fst =
      .ok none [] (some startNote) ∧
    (readNextLines 300 [("a.srt", ⟨"a\nb", 3⟩)] [] "a.srt" 2).fst =
      .ok none [] (some endNote) :=
  ⟨(claim_C6 300 [("a.srt", ⟨"a\nb", 3⟩)] [] "a.srt").1 1 (by decide),
   (claim_C6 300 [("a.srt", ⟨"a\nb", 3⟩)] [] "a.srt").2 ⟨"a\nb", 3⟩ 2
     (by decide) (by decide) (by decide)⟩

/-- C10: the two edge branches are asymmetric with respect to I/O:
`readPreviousLines` with `lineNumber ≤ 1` answers before touching the
filesystem and so succeeds even when the file does not exist, while
`readNextLines` loads the file before its range check and so fails with
the tagged I/O error for every line number when the file is missing. -/
theorem claim_C10 (ctxWindow : Nat) (fs : FileSys) (cache : SrtCache) (path : String)
    (hmiss : fsGet fs path = none) :
    (∀ n : Int, n ≤ 1 →
      (readPreviousLines ctxWindow fs cache path n).fst = .ok none [] (some startNote)) ∧
    (∀ n : Int, (readNextLines ctxWindow fs cache path n).fst =
      .err (fsErrorMessage path)) := by
  constructor
  · intro n hn
    simp [readPreviousLines, hn]
  · intro n
    simp [readNextLines, loadSrtLines, getSrtData, hmiss]

/-- Witness for C10: the empty filesystem, at an in-range and an
out-of-range line number. -/
theorem claim_C10_witness :
    (readPreviousLines 300 [] [] "missing.srt" 1).fst = .ok none [] (some startNote) ∧
    (readNextLines 300 [] [] "missing.srt" 12).fst =
      .err (fsErrorMessage "missing.srt") :=
  ⟨(claim_C10 300 [] [] "missing.srt" (by decide)).1 1 (by decide),
   (claim_C10 300 [] [] "missing.srt" (by decide)).2 12⟩

theorem linearScanAux_eq_find (lines : List String) (t : Nat) :
    ∀ (l : List String) (i : Nat),
      linearScanAux lines t l i =
        ((extractEntriesAux lines l i).find?
            (fun e => decide (e.start ≤ t ∧ t ≤ e.end_))).map
          (fun e => (e.timestampLine + 1, e.entryLines)) := by
  intro l
  induction l with
  | nil => intro i; simp [linearScanAux, extractEntriesAux]
  | cons line rest ih =>
    intro i
    cases hm : matchTimingLine line with
    | none =>
      simp only [linearScanAux, extractEntriesAux, hm]
      exact ih (i + 1)
    | some p =>
      obtain ⟨g1, g2⟩ := p
      cases hp1 : parseTimestamp g1 with
      | none =>
        cases hp2 : parseTimestamp g2 with
        | none =>
          simp only [linearScanAux, extractEntriesAux, hm, hp1, hp2]
          exact ih (i + 1)
        | some eMs =>
          simp only [linearScanAux, extractEntriesAux, hm, hp1, hp2]
          exact ih (i + 1)
      | some sMs =>
        cases hp2 : parseTimestamp g2 with
        | none =>
          simp only [linearScanAux, extractEntriesAux, hm, hp1, hp2]
          exact ih (i + 1)
        | some eMs =>
          by_cases hr : sMs ≤ t ∧ t ≤ eMs
          · simp only [linearScanAux, extractEntriesAux, hm, hp1, hp2, if_pos hr]
            rw [List.find?_cons_of_pos _ (by simpa using hr)]
            simp
          · simp only [linearScanAux, extractEntriesAux, hm, hp1, hp2, if_neg hr]
            rw [List.find?_cons_of_neg _ (by simpa using hr)]
            exact ih (i + 1)

/-- C8: the linear-scan variant `getLineNumberAtTimestamp` is
functionally subsumed by the binary-search variant
`getLinesAtTimestamp`: on a file whose indexed caption ranges are
well-formed, non-overlapping and sorted, they agree on
invalid-timestamp failure, on no-match failure, and on success, and on
success both select the same caption block (same timing line number,
same entry lines), the linear variant merely omitting the extra context
window. -/
theorem claim_C8 (window : Nat) (fs : FileSys) (path : String) (fd : FileData)
    (T : String)
    (hfile : fsGet fs path = some fd)
    (hsorted : rangesSorted (extractEntries (splitLines fd.content))) :
    (parseTimestamp T = none →
      getLineNumberAtTimestamp fs path T = .err invalidTimestampMessage ∧
      (getLinesAtTimestamp window fs [] path T).fst = .err invalidTimestampMessage) ∧
    (∀ t, parseTimestamp T = some t →
      (∀ e ∈ extractEntries (splitLines fd.content), t < e.start ∨ e.end_ < t) →
      getLineNumberAtTimestamp fs path T = .err noMatchMessage ∧
      (getLinesAtTimestamp window fs [] path T).fst = .err noMatchMessage) ∧
    (∀ t, parseTimestamp T = some t →
      ∀ (i : Nat) (e : SrtEntry),
        (extractEntries (splitLines fd.content)).get? i = some e →
        e.start ≤ t → t ≤ e.end_ →
        getLineNumberAtTimestamp fs path T = .ok (e.timestampLine + 1) e.entryLines ∧
        ∃ sL eL ctx, (getLinesAtTimestamp window fs [] path T).fst =
          .ok sL eL e.entryLines ctx) := by
  have hdata := getSrtData_of_uncached fs [] path fd hfile rfl
  refine ⟨?_, ?_, ?_⟩
  · intro hpT
    constructor
    · simp [getLineNumberAtTimestamp, hpT]
    · simp [getLinesAtTimestamp, hpT]
  · intro t hpT hnone
    constructor
    · have hfind : (extractEntries (splitLines fd.content)).find?
          (fun e => decide (e.start ≤ t ∧ t ≤ e.end_)) = none := by
        rw [List.find?_eq_none]
        intro x hx
        rcases hnone x hx with hc | hc <;> simp <;> omega
      have hlin := linearScanAux_eq_find (splitLines fd.content) t (splitLines fd.content) 0
      rw [show extractEntriesAux (splitLines fd.content) (splitLines fd.content) 0 =
        extractEntries (splitLines fd.content) from rfl, hfind] at hlin
      simp [getLineNumberAtTimestamp, hpT, hfile, hlin]
    · cases hbs : bsearchEntries (extractEntries (splitLines fd.content)) t 0
          (((extractEntries (splitLines fd.content)).length : Int) - 1) with
      | some e =>
        exfalso
        obtain ⟨hmem, hv1, hv2⟩ := bsearchEntries_sound _ t _ 0 _ (le_refl _) e hbs
        rcases hnone e hmem with hc | hc <;> omega
      | none =>
        simp [getLinesAtTimestamp, hpT, hdata, buildSrtValue, hbs]
  · intro t hpT i e hi hv1 hv2
    have hilen : i < (extractEntries (splitLines fd.content)).length :=
      (List.get?_eq_some.mp hi).1
    constructor
    · have hfind : (extractEntries (splitLines fd.content)).find?
          (fun e => decide (e.start ≤ t ∧ t ≤ e.end_)) = some e := by
        cases hf : (extractEntries (splitLines fd.content)).find?
            (fun e => decide (e.start ≤ t ∧ t ≤ e.end_)) with
        | none =>
          rw [List.find?_eq_none] at hf
          exact absurd (by simp; omega) (hf e (List.get?_mem hi))
        | some e' =>
          have hpred := List.find?_some hf
          simp only [decide_eq_true_eq] at hpred
          have hmem' := List.mem_of_find?_eq_some hf
          obtain ⟨j, hj⟩ := List.mem_iff_get?.mp hmem'
          have hij : i = j := rangesSorted_unique hsorted t hi hj hv1 hv2 hpred.1 hpred.2
          rw [← hij] at hj
          rw [hj, Option.some_inj] at hi
          rw [hi]
      have hlin := linearScanAux_eq_find (splitLines fd.content) t (splitLines fd.content) 0
      rw [show extractEntriesAux (splitLines fd.content) (splitLines fd.content) 0 =
        extractEntries (splitLines fd.content) from rfl, hfind] at hlin
      simp [getLineNumberAtTimestamp, hpT, hfile, hlin]
    · have hbs : bsearchEntries (extractEntries (splitLines fd.content)) t 0
          (((extractEntries (splitLines fd.content)).length : Int) - 1) = some e :=
        bsearchEntries_complete _ t hsorted
          (((extractEntries (splitLines fd.content)).length : Int) - 1 + 1 - 0).toNat
          0 _ i e (le_refl _) hi hv1 hv2 (by omega) (by omega) (by omega) (by omega)
      refine ⟨e.timestampLine + 1 - 1 - window + 1,
        min (splitLines fd.content).length (e.timestampLine + 1 - 1 + window + 1),
        String.intercalate "\n"
          (((splitLines fd.content).drop (e.timestampLine + 1 - 1 - window)).take
            (min (splitLines fd.content).length (e.timestampLine + 1 - 1 + window + 1) -
              (e.timestampLine + 1 - 1 - window))), ?_⟩
      simp [getLinesAtTimestamp, hpT, hdata, buildSrtValue, hbs]

/-- Witness for C8: both variants resolve `"00:00:02,000"` in the
sample file to the first caption block. -/
theorem claim_C8_witness :
    getLineNumberAtTimestamp demoFs "a.srt" "00:00:02,000" =
      .ok (demoEntry0.timestampLine + 1) demoEntry0.entryLines ∧
    ∃ sL eL ctx, (getLinesAtTimestamp 100 demoFs [] "a.srt" "00:00:02,000").fst =
      .ok sL eL demoEntry0.entryLines ctx :=
  (claim_C8 100 demoFs "a.srt" ⟨demoContent, 7⟩ "00:00:02,000" (by decide)
    ⟨by decide, by decide⟩).2.2 2000 (by decide) 0 demoEntry0 (by decide)
    (by decide) (by decide)

/-- Witness for C5: applied to the in-range pair `"00:00:02,000"` and
`"00:00:01,999"`. -/
theorem claim_C5_witness :
    parseTimestamp "00:00:01,999" = some (((0 * 60 + 0) * 60 + 1) * 1000 + 999) ∧
    (2000 : Nat) > 1999 := by
  constructor
  · exact claim_C5.1 "00:00:01,999" 0 0 1 999 (by decide)
  · have hlt : ("00:00:01,999" : String) < "00:00:02,000" := by
      rw [String.lt_iff_toList_lt]
      decide
    have := claim_C5.2 "00:00:02,000" "00:00:01,999" 0 0 2 0 0 0 1 999 2000 1999
      (by decide) (by decide) (by decide) (by decide) (by decide) (by decide)
      (by decide) (by decide) hlt
    omega

end Srt
